import Mathlib

/-
Verification of the chunked-transfer and registry engine of the
GitHub-backed file storage client.  The development shallowly embeds the
relevant functions of the two source variants (script.js and the unnamed
sibling source, called the part_000 variant below) as executable Lean
definitions and proves the specified properties about them.

Blobs are modelled as lists of bytes (List Nat); asynchronous network
calls are modelled by passing the observed remote state explicitly;
JavaScript exceptions and promise rejections are modelled with Except or
with an explicit error flag.  Bounded while loops are embedded with a
fuel argument that equals the loop bound established by the loop body
(each iteration strictly advances the loop variable), so every
definition is executable by the kernel.
-/

/-! ## Configuration constants (CONFIG in both variants) -/

/-- CONFIG.CHUNK_SIZE of script.js: 20 MiB. -/
def CHUNK_SIZE : Nat := 20 * 1024 * 1024

/-- CONFIG.CHUNK_SIZE of the part_000 variant: 90 MiB. -/
def CHUNK_SIZE_PART000 : Nat := 90 * 1024 * 1024

/-- CONFIG.PARALLEL_BATCH of script.js. -/
def PARALLEL_BATCH : Nat := 5

/-- CONFIG.RETRY_ATTEMPTS of the part_000 variant. -/
def RETRY_ATTEMPTS : Nat := 3

/-- CONFIG.RETRY_DELAY of the part_000 variant, in milliseconds. -/
def RETRY_DELAY : Nat := 2000

/-! ## Chunker

createChunks (script.js lines 302-310, identical loop in the part_000
variant lines 341-353) slices a blob into consecutive CHUNK_SIZE pieces:

  let offset = 0;
  while (offset < blob.size) \x7b
    chunks.push(blob.slice(offset, offset + CONFIG.CHUNK_SIZE));
    offset += CONFIG.CHUNK_SIZE;
  \x7d

The loop is embedded on the remaining suffix of the blob; the fuel
argument bounds the iteration count (with chunkSize at least 1 each
iteration consumes at least one byte, so blob.length iterations
suffice).  The chunk size is the fixed CONFIG constant in the source;
it is a parameter here so that both variants are covered. -/

def createChunksLoop (chunkSize : Nat) : Nat → List Nat → List (List Nat)
  | _, [] => []
  | 0, _ :: _ => []
  | fuel + 1, b => b.take chunkSize :: createChunksLoop chunkSize fuel (b.drop chunkSize)

/-- createChunks of script.js with the chunk size as a parameter. -/
def createChunks (chunkSize : Nat) (blob : List Nat) : List (List Nat) :=
  createChunksLoop chunkSize blob.length blob

/-- combineChunks (script.js lines 582-591): allocates a buffer of the
total length and copies the chunks in input order, i.e. concatenation. -/
def combineChunks (chunks : List (List Nat)) : List Nat :=
  chunks.flatten

lemma createChunksLoop_nil (chunkSize fuel : Nat) :
    createChunksLoop chunkSize fuel [] = [] := by
  cases fuel <;> rfl

lemma createChunksLoop_flatten (s : Nat) (hs : 1 ≤ s) :
    ∀ fuel b, List.length b ≤ fuel → (createChunksLoop s fuel b).flatten = b := by
  intro fuel
  induction fuel with
  | zero =>
    intro b hb
    have hb0 : b = [] := List.eq_nil_of_length_eq_zero (Nat.le_zero.mp hb)
    subst hb0
    rfl
  | succ fuel ih =>
    intro b hb
    cases b with
    | nil => rfl
    | cons x t =>
      have hlen : List.length (List.drop s (x :: t)) ≤ fuel := by
        simp only [List.length_drop, List.length_cons]
        simp only [List.length_cons] at hb
        omega
      show (List.take s (x :: t) :: createChunksLoop s fuel (List.drop s (x :: t))).flatten
          = x :: t
      rw [List.flatten_cons, ih _ hlen, List.take_append_drop]

lemma createChunksLoop_length (s : Nat) (hs : 1 ≤ s) :
    ∀ fuel b, List.length b ≤ fuel →
      (createChunksLoop s fuel b).length = (List.length b + s - 1) / s := by
  intro fuel
  induction fuel with
  | zero =>
    intro b hb
    have hb0 : b = [] := List.eq_nil_of_length_eq_zero (Nat.le_zero.mp hb)
    subst hb0
    have h0 : (0 + s - 1) / s = 0 := Nat.div_eq_of_lt (by omega)
    simpa using h0.symm
  | succ fuel ih =>
    intro b hb
    cases b with
    | nil =>
      have h0 : (0 + s - 1) / s = 0 := Nat.div_eq_of_lt (by omega)
      simpa using h0.symm
    | cons x t =>
      have hlen : List.length (List.drop s (x :: t)) ≤ fuel := by
        simp only [List.length_drop, List.length_cons]
        simp only [List.length_cons] at hb
        omega
      show (List.take s (x :: t) :: createChunksLoop s fuel (List.drop s (x :: t))).length
          = (List.length (x :: t) + s - 1) / s
      rw [List.length_cons, ih _ hlen, List.length_drop]
      have hn1 : 1 ≤ List.length (x :: t) := by simp
      rcases le_or_lt (List.length (x :: t)) s with hle | hgt
      · have e1 : List.length (x :: t) - s = 0 := by omega
        rw [e1]
        have e2 : (0 + s - 1) / s = 0 := Nat.div_eq_of_lt (by omega)
        have e3 : (List.length (x :: t) + s - 1) / s = 1 :=
          Nat.div_eq_of_lt_le (by omega) (by omega)
        rw [e2, e3]
      · have e1 : List.length (x :: t) - s + s - 1 = List.length (x :: t) - 1 := by omega
        have e2 : List.length (x :: t) + s - 1 = (List.length (x :: t) - 1) + s := by omega
        rw [e1, e2, Nat.add_div_right _ (by omega : 0 < s)]

lemma createChunksLoop_sizes (s : Nat) (hs : 1 ≤ s) :
    ∀ fuel b, List.length b ≤ fuel →
      (∀ c ∈ (createChunksLoop s fuel b).dropLast, List.length c = s) ∧
      (∀ c, (createChunksLoop s fuel b).getLast? = some c →
        1 ≤ List.length c ∧ List.length c ≤ s) := by
  intro fuel
  induction fuel with
  | zero =>
    intro b hb
    have hb0 : b = [] := List.eq_nil_of_length_eq_zero (Nat.le_zero.mp hb)
    subst hb0
    exact ⟨fun c hc => by simp [createChunksLoop_nil] at hc,
      fun c hc => by simp [createChunksLoop_nil] at hc⟩
  | succ fuel ih =>
    intro b hb
    cases b with
    | nil =>
      exact ⟨fun c hc => by simp [createChunksLoop_nil] at hc,
        fun c hc => by simp [createChunksLoop_nil] at hc⟩
    | cons x t =>
      have hred : createChunksLoop s (fuel + 1) (x :: t)
          = List.take s (x :: t) :: createChunksLoop s fuel (List.drop s (x :: t)) := rfl
      rcases le_or_lt (List.length (x :: t)) s with hle | hgt
      · have hdrop : List.drop s (x :: t) = [] := List.drop_eq_nil_of_le hle
        rw [hred, hdrop, createChunksLoop_nil]
        constructor
        · intro c hc
          simp at hc
        · intro c hc
          simp only [List.getLast?_singleton, Option.some_inj] at hc
          subst hc
          constructor
          · simp only [List.length_take, List.length_cons]
            omega
          · simp only [List.length_take, List.length_cons]
            omega
      · have hdl : List.length (List.drop s (x :: t)) = List.length (x :: t) - s := by
          rw [List.length_drop]
        have hdroplen : List.length (List.drop s (x :: t)) ≤ fuel := by
          simp only [List.length_cons] at hb
          simp only [List.length_cons] at hdl
          omega
        have hdroppos : 1 ≤ List.length (List.drop s (x :: t)) := by
          omega
        have hrest : createChunksLoop s fuel (List.drop s (x :: t)) ≠ [] := by
          cases hfuel : fuel with
          | zero =>
            exfalso
            omega
          | succ f =>
            cases hd : List.drop s (x :: t) with
            | nil =>
              rw [hd] at hdroppos
              simp at hdroppos
            | cons y u =>
              exact List.cons_ne_nil _ _
        obtain ⟨r, rs, hrr⟩ := List.exists_cons_of_ne_nil hrest
        have ihres := ih (List.drop s (x :: t)) hdroplen
        rw [hrr] at ihres
        rw [hred, hrr]
        constructor
        · intro c hc
          rw [show (List.take s (x :: t) :: r :: rs).dropLast
              = List.take s (x :: t) :: (r :: rs).dropLast from rfl] at hc
          rcases List.mem_cons.mp hc with hc | hc
          · subst hc
            simp only [List.length_cons] at hgt
            simp only [List.length_take, List.length_cons]
            omega
          · exact ihres.1 c hc
        · intro c hc
          rw [List.getLast?_cons_cons] at hc
          exact ihres.2 c hc

/-- Claim C1: for every blob b and chunk size s at least 1, combining
the chunks produced by createChunks yields b; the number of chunks is
the ceiling of len(b)/s, which is 0 for the empty blob; every chunk
except the last has exactly s bytes and the last has between 1 and s
bytes. -/
theorem chunk_roundtrip (s : Nat) (hs : 1 ≤ s) (b : List Nat) :
    combineChunks (createChunks s b) = b ∧
    (createChunks s b).length = (List.length b + s - 1) / s ∧
    (b = [] → createChunks s b = []) ∧
    (∀ c ∈ (createChunks s b).dropLast, List.length c = s) ∧
    (∀ c, (createChunks s b).getLast? = some c →
      1 ≤ List.length c ∧ List.length c ≤ s) := by
  refine ⟨createChunksLoop_flatten s hs (List.length b) b le_rfl,
    createChunksLoop_length s hs (List.length b) b le_rfl, ?_,
    (createChunksLoop_sizes s hs (List.length b) b le_rfl).1,
    (createChunksLoop_sizes s hs (List.length b) b le_rfl).2⟩
  intro hb
  subst hb
  rfl

/-- Witness for chunk_roundtrip at the script.js CHUNK_SIZE and a
concrete three-byte blob. -/
theorem chunk_roundtrip_witness :
    1 ≤ CHUNK_SIZE ∧
    (combineChunks (createChunks CHUNK_SIZE [10, 20, 30]) = [10, 20, 30] ∧
     (createChunks CHUNK_SIZE [10, 20, 30]).length
        = (List.length [10, 20, 30] + CHUNK_SIZE - 1) / CHUNK_SIZE ∧
     ([10, 20, 30] = ([] : List Nat) → createChunks CHUNK_SIZE [10, 20, 30] = []) ∧
     (∀ c ∈ (createChunks CHUNK_SIZE [10, 20, 30]).dropLast, List.length c = CHUNK_SIZE) ∧
     (∀ c, (createChunks CHUNK_SIZE [10, 20, 30]).getLast? = some c →
       1 ≤ List.length c ∧ List.length c ≤ CHUNK_SIZE)) :=
  ⟨by decide, chunk_roundtrip CHUNK_SIZE (by decide) [10, 20, 30]⟩

/-! ## Registry data model

A FileEntry is one record of the data.json registry.  The modelled
fields are the ones the verified operations read or write; id and the
ISO timestamps are bookkeeping strings not involved in any claim. -/

structure FileEntry where
  name : String
  category : String
  originalSize : Nat
  compressedSize : Nat
  chunkCount : Nat
deriving DecidableEq

/-- The data.json document: the ordered files sequence plus the
lastUpdated stamp (timestamps are abstracted as naturals). -/
structure DataJson where
  files : List FileEntry
  lastUpdated : Nat
deriving DecidableEq

/-! ## Per-chunk upload with bounded retry

uploadChunk of script.js (lines 330-368):

  let attempt = 0;
  while (attempt < 3) \x7b
    try \x7b ... PUT ...; if (ok) return; throw ... \x7d
    catch \x7b attempt++;
      if (attempt < 3) await delay(1000 * attempt);
      else throw new Error(...); \x7d
  \x7d

The network outcome of attempt j is abstracted by ok j.  The result
records the delays slept between attempts, the number of attempts made
and whether the chunk was eventually uploaded.  The fuel argument is
the remaining loop bound, 3 - attempt, so the embedding starts at fuel
3, attempt 0. -/

structure ChunkTryResult where
  delays : List Nat
  attemptsMade : Nat
  success : Bool
deriving DecidableEq

def uploadChunkLoop (ok : Nat → Bool) : Nat → Nat → ChunkTryResult
  | 0, _ => ⟨[], 0, true⟩
  | fuel + 1, attempt =>
    if ok attempt then ⟨[], 1, true⟩
    else if attempt + 1 < 3 then
      ⟨1000 * (attempt + 1) :: (uploadChunkLoop ok fuel (attempt + 1)).delays,
       (uploadChunkLoop ok fuel (attempt + 1)).attemptsMade + 1,
       (uploadChunkLoop ok fuel (attempt + 1)).success⟩
    else ⟨[], 1, false⟩

/-- uploadChunk of script.js, entered with attempt = 0. -/
def uploadChunk (ok : Nat → Bool) : ChunkTryResult :=
  uploadChunkLoop ok 3 0

/-- uploadChunkToGitHub of the part_000 variant (lines 376-416): the
same bounded while loop, except that the sleep between attempts is the
constant CONFIG.RETRY_DELAY rather than 1000 * attempt. -/
def uploadChunkToGitHubLoop (ok : Nat → Bool) : Nat → Nat → ChunkTryResult
  | 0, _ => ⟨[], 0, true⟩
  | fuel + 1, attempt =>
    if ok attempt then ⟨[], 1, true⟩
    else if attempt + 1 < RETRY_ATTEMPTS then
      ⟨RETRY_DELAY :: (uploadChunkToGitHubLoop ok fuel (attempt + 1)).delays,
       (uploadChunkToGitHubLoop ok fuel (attempt + 1)).attemptsMade + 1,
       (uploadChunkToGitHubLoop ok fuel (attempt + 1)).success⟩
    else ⟨[], 1, false⟩

def uploadChunkToGitHub (ok : Nat → Bool) : ChunkTryResult :=
  uploadChunkToGitHubLoop ok RETRY_ATTEMPTS 0

lemma uploadChunkLoop_attempts_le (ok : Nat → Bool) :
    ∀ fuel attempt, (uploadChunkLoop ok fuel attempt).attemptsMade ≤ fuel := by
  intro fuel
  induction fuel with
  | zero => intro attempt; exact Nat.le_refl 0
  | succ fuel ih =>
    intro attempt
    simp only [uploadChunkLoop]
    by_cases h : ok attempt
    · simp [h]
    · simp only [h, if_false, Bool.false_eq_true]
      by_cases h2 : attempt + 1 < 3
      · simp only [if_pos h2]
        exact Nat.succ_le_succ (ih (attempt + 1))
      · simp only [if_neg h2]
        omega

lemma uploadChunkLoop_delays_increasing (ok : Nat → Bool) :
    ∀ fuel attempt,
      List.Pairwise (· < ·) (uploadChunkLoop ok fuel attempt).delays ∧
      ∀ d ∈ (uploadChunkLoop ok fuel attempt).delays, 1000 * (attempt + 1) ≤ d := by
  intro fuel
  induction fuel with
  | zero =>
    intro attempt
    exact ⟨List.Pairwise.nil, fun d hd => by simp [uploadChunkLoop] at hd⟩
  | succ fuel ih =>
    intro attempt
    simp only [uploadChunkLoop]
    by_cases h : ok attempt
    · simp [h]
    · simp only [h, if_false, Bool.false_eq_true]
      by_cases h2 : attempt + 1 < 3
      · simp only [if_pos h2]
        obtain ⟨ihp, ihb⟩ := ih (attempt + 1)
        constructor
        · exact List.pairwise_cons.mpr
            ⟨fun d hd => by have := ihb d hd; omega, ihp⟩
        · intro d hd
          rcases List.mem_cons.mp hd with hd | hd
          · omega
          · have := ihb d hd
            omega
      · simp only [if_neg h2]
        exact ⟨List.Pairwise.nil, fun d hd => by simp at hd⟩

lemma uploadChunkToGitHubLoop_attempts_le (ok : Nat → Bool) :
    ∀ fuel attempt, (uploadChunkToGitHubLoop ok fuel attempt).attemptsMade ≤ fuel := by
  intro fuel
  induction fuel with
  | zero => intro attempt; exact Nat.le_refl 0
  | succ fuel ih =>
    intro attempt
    simp only [uploadChunkToGitHubLoop]
    by_cases h : ok attempt
    · simp [h]
    · simp only [h, if_false, Bool.false_eq_true]
      by_cases h2 : attempt + 1 < RETRY_ATTEMPTS
      · simp only [if_pos h2]
        exact Nat.succ_le_succ (ih (attempt + 1))
      · simp only [if_neg h2]
        omega

lemma uploadChunkToGitHubLoop_delays_const (ok : Nat → Bool) :
    ∀ fuel attempt, ∀ d ∈ (uploadChunkToGitHubLoop ok fuel attempt).delays,
      d = RETRY_DELAY := by
  intro fuel
  induction fuel with
  | zero => intro attempt d hd; simp [uploadChunkToGitHubLoop] at hd
  | succ fuel ih =>
    intro attempt d hd
    simp only [uploadChunkToGitHubLoop] at hd
    by_cases h : ok attempt
    · simp [h] at hd
    · simp only [h, if_false, Bool.false_eq_true] at hd
      by_cases h2 : attempt + 1 < RETRY_ATTEMPTS
      · simp only [if_pos h2] at hd
        rcases List.mem_cons.mp hd with hd | hd
        · exact hd
        · exact ih (attempt + 1) d hd
      · simp only [if_neg h2] at hd
        simp at hd

/-- Claim C4 counterexample: a chunk whose every attempt fails sleeps
the constant CONFIG.RETRY_DELAY (2000 ms) between both pairs of
consecutive attempts in the part_000 variant, so the backoff delay is
not strictly increasing in the attempt number. -/
theorem retry_backoff_not_increasing_cex :
    (uploadChunkToGitHub (fun _ => false)).delays = [RETRY_DELAY, RETRY_DELAY] ∧
    ¬ List.Pairwise (· < ·) (uploadChunkToGitHub (fun _ => false)).delays ∧
    (uploadChunkToGitHub (fun _ => false)).attemptsMade = 3 ∧
    (uploadChunkToGitHub (fun _ => false)).success = false := by
  refine ⟨rfl, ?_, rfl, rfl⟩
  intro h
  have : (uploadChunkToGitHub (fun _ => false)).delays = [RETRY_DELAY, RETRY_DELAY] := rfl
  rw [this] at h
  have := List.rel_of_pairwise_cons h (List.mem_singleton.mpr rfl)
  omega

/-- Claim C4 (amended): every chunk transfer is attempted at most 3
times in both variants; the backoff delay between consecutive attempts
is strictly increasing (1000 ms times the attempt number) in the
script.js variant, but is the constant 2000 ms in the part_000
variant. -/
theorem retry_policy_amended (ok : Nat → Bool) :
    (uploadChunk ok).attemptsMade ≤ 3 ∧
    List.Pairwise (· < ·) (uploadChunk ok).delays ∧
    (uploadChunkToGitHub ok).attemptsMade ≤ RETRY_ATTEMPTS ∧
    (∀ d ∈ (uploadChunkToGitHub ok).delays, d = RETRY_DELAY) :=
  ⟨uploadChunkLoop_attempts_le ok 3 0,
   (uploadChunkLoop_delays_increasing ok 3 0).1,
   uploadChunkToGitHubLoop_attempts_le ok RETRY_ATTEMPTS 0,
   uploadChunkToGitHubLoop_delays_const ok RETRY_ATTEMPTS 0⟩

/-- Witness for retry_policy_amended on the all-attempts-fail outcome. -/
theorem retry_policy_amended_witness :
    (uploadChunk (fun _ => false)).attemptsMade ≤ 3 ∧
    List.Pairwise (· < ·) (uploadChunk (fun _ => false)).delays ∧
    (uploadChunkToGitHub (fun _ => false)).attemptsMade ≤ RETRY_ATTEMPTS ∧
    (∀ d ∈ (uploadChunkToGitHub (fun _ => false)).delays, d = RETRY_DELAY) :=
  retry_policy_amended (fun _ => false)

/-! ## Batched parallel chunk upload and the upload orchestration

uploadChunksParallel of script.js (lines 312-328):

  for (let i = 0; i < total; i += CONFIG.PARALLEL_BATCH) \x7b
    const batch = chunks.slice(i, Math.min(i + CONFIG.PARALLEL_BATCH, total));
    await Promise.all(batch.map((chunk, idx) => uploadChunk(..., i + idx, total)));
    updateProgress(...);
  \x7d

A rejected uploadChunk rejects the Promise.all of its batch and hence
the whole call.  Chunk attempt outcomes are abstracted by ok: ok i j is
true exactly when attempt j of chunk i succeeds.  The fuel argument
bounds the iteration count (i advances by PARALLEL_BATCH ≥ 1 per
iteration, so total iterations suffice). -/

def uploadChunksParallelLoop (ok : Nat → Nat → Bool) (total : Nat) :
    Nat → Nat → Except String Unit
  | 0, _ => Except.ok ()
  | fuel + 1, i =>
    if i < total then
      if (List.range (min PARALLEL_BATCH (total - i))).all
          (fun idx => (uploadChunk (ok (i + idx))).success) then
        uploadChunksParallelLoop ok total fuel (i + PARALLEL_BATCH)
      else Except.error ("chunk failed")
    else Except.ok ()

def uploadChunksParallel (ok : Nat → Nat → Bool) (total : Nat) : Except String Unit :=
  uploadChunksParallelLoop ok total total 0

/-- Outcome of one run of startUpload: the in-memory registry files
afterwards, and whether the operation failed (reached the catch block
of script.js lines 276-282). -/
structure UploadRunResult where
  registryFiles : List FileEntry
  failed : Bool
deriving DecidableEq

/-- startUpload of script.js (lines 227-283), restricted to the chunk
transfer and registry effects: uploadChunksParallel is awaited inside
the try block, so a rejection jumps to the catch block and
updateRegistry - the only step that appends the FileEntry - is never
reached.  On success updateRegistry pushes the entry. -/
def startUpload (registryFiles : List FileEntry) (entry : FileEntry)
    (ok : Nat → Nat → Bool) (total : Nat) : UploadRunResult :=
  match uploadChunksParallel ok total with
  | Except.ok _ => ⟨registryFiles ++ [entry], false⟩
  | Except.error _ => ⟨registryFiles, true⟩

lemma uploadChunk_success_false (ok : Nat → Bool)
    (h0 : ok 0 = false) (h1 : ok 1 = false) (h2 : ok 2 = false) :
    (uploadChunk ok).success = false := by
  simp [uploadChunk, uploadChunkLoop, h0, h1, h2]

lemma uploadChunksParallelLoop_error (ok : Nat → Nat → Bool) (total i0 : Nat)
    (hi0 : i0 < total) (hfail : (uploadChunk (ok i0)).success = false) :
    ∀ fuel i, total ≤ i + 5 * fuel → i ≤ i0 →
      ∃ e, uploadChunksParallelLoop ok total fuel i = Except.error e := by
  have hb5 : PARALLEL_BATCH = 5 := rfl
  intro fuel
  induction fuel with
  | zero =>
    intro i hfuel hii0
    exfalso
    omega
  | succ fuel ih =>
    intro i hfuel hii0
    have hi : i < total := by omega
    simp only [uploadChunksParallelLoop, if_pos hi]
    by_cases hall : (List.range (min PARALLEL_BATCH (total - i))).all
        (fun idx => (uploadChunk (ok (i + idx))).success) = true
    · rcases Nat.lt_or_ge i0 (i + PARALLEL_BATCH) with hlt | hge
      · exfalso
        have hmem : i0 - i ∈ List.range (min PARALLEL_BATCH (total - i)) := by
          rw [List.mem_range]
          omega
        have hok := List.all_eq_true.mp hall _ hmem
        rw [show i + (i0 - i) = i0 from by omega] at hok
        rw [hfail] at hok
        simp at hok
      · rw [if_pos hall]
        exact ih (i + PARALLEL_BATCH) (by omega) (by omega)
    · rw [if_neg hall]
      exact ⟨_, rfl⟩

/-- Claim C3: if some chunk fails all 3 upload attempts, the chunk
upload loop rejects, the whole upload fails, and no FileEntry is
appended to the registry. -/
theorem startUpload_rejects_on_chunk_failure
    (registryFiles : List FileEntry) (entry : FileEntry) (ok : Nat → Nat → Bool)
    (total i : Nat) (hi : i < total)
    (h0 : ok i 0 = false) (h1 : ok i 1 = false) (h2 : ok i 2 = false) :
    (startUpload registryFiles entry ok total).failed = true ∧
    (startUpload registryFiles entry ok total).registryFiles = registryFiles := by
  have hb5 : PARALLEL_BATCH = 5 := rfl
  have hfail := uploadChunk_success_false (ok i) h0 h1 h2
  obtain ⟨e, he⟩ := uploadChunksParallelLoop_error ok total i hi hfail total 0
    (by omega) (by omega)
  have hrun : uploadChunksParallel ok total = Except.error e := he
  unfold startUpload
  rw [hrun]
  exact ⟨rfl, rfl⟩

/-- A concrete FileEntry used by the witnesses. -/
def sampleEntry : FileEntry :=
  ⟨"demo.zip", "game", 100, 40, 1⟩

/-- Witness for startUpload_rejects_on_chunk_failure: one chunk whose
three attempts all fail. -/
theorem startUpload_rejects_on_chunk_failure_witness :
    (0 : Nat) < 1 ∧
    (startUpload [] sampleEntry (fun _ _ => false) 1).failed = true ∧
    (startUpload [] sampleEntry (fun _ _ => false) 1).registryFiles = [] :=
  ⟨by decide,
   (startUpload_rejects_on_chunk_failure [] sampleEntry (fun _ _ => false) 1 0
     (by decide) rfl rfl rfl).1,
   (startUpload_rejects_on_chunk_failure [] sampleEntry (fun _ _ => false) 1 0
     (by decide) rfl rfl rfl).2⟩

/-! ## Progress reporting during chunk transfer

The order of chunk completions and updateProgress calls is modelled as
a trace of events.  In the script.js uploadChunksParallel loop all
members of a batch complete (Promise.all) and then a single
updateProgress call is made; in the part_000 uploadChunks loop each
chunk is awaited and updateProgress is called after it.  The per-chunk
addLog calls are log lines, not progress reports. -/

inductive TransferEvent where
  | chunkDone : TransferEvent
  | progressReport : TransferEvent
deriving DecidableEq

def isChunkDone : TransferEvent → Bool
  | TransferEvent.chunkDone => true
  | TransferEvent.progressReport => false

def isProgressReport : TransferEvent → Bool
  | TransferEvent.chunkDone => false
  | TransferEvent.progressReport => true

/-- Number of completed chunks in a trace. -/
def countDone (t : List TransferEvent) : Nat :=
  t.countP isChunkDone

/-- Number of progress reports in a trace. -/
def countReports (t : List TransferEvent) : Nat :=
  t.countP isProgressReport

/-- Event trace of uploadChunksParallel (script.js lines 312-328): per
loop iteration, min(PARALLEL_BATCH, total - i) chunk completions
followed by one updateProgress call. -/
def uploadChunksParallelTraceLoop (total : Nat) : Nat → Nat → List TransferEvent
  | 0, _ => []
  | fuel + 1, i =>
    if i < total then
      List.replicate (min PARALLEL_BATCH (total - i)) TransferEvent.chunkDone
        ++ TransferEvent.progressReport
          :: uploadChunksParallelTraceLoop total fuel (i + PARALLEL_BATCH)
    else []

def uploadChunksParallelTrace (total : Nat) : List TransferEvent :=
  uploadChunksParallelTraceLoop total total 0

/-- Event trace of uploadChunks (part_000 variant lines 356-374): each
chunk is uploaded and then updateProgress is called, one at a time. -/
def uploadChunksTrace (total : Nat) : List TransferEvent :=
  (List.range total).flatMap
    (fun _ => [TransferEvent.chunkDone, TransferEvent.progressReport])

/-- Claim C8 counterexample: with 6 chunks, the script.js batched
variant has completed 5 chunks before the first updateProgress call,
so it is not the case that the number of progress events emitted so
far is at least the number of completed chunks at every point. -/
theorem parallel_progress_only_at_batch_boundaries_cex :
    ¬ (∀ k, countDone (List.take k (uploadChunksParallelTrace 6))
        ≤ countReports (List.take k (uploadChunksParallelTrace 6))) := by
  intro h
  exact absurd (h 5) (by decide)

lemma countP_replicate_self {α} (p : α → Bool) (a : α) (n : Nat) :
    List.countP p (List.replicate n a) = if p a then n else 0 := by
  induction n with
  | zero => simp
  | succ n ih =>
    rw [List.replicate_succ, List.countP_cons, ih]
    by_cases h : p a <;> simp [h]

lemma seq_trace_prefix_bound (xs : List Nat) :
    ∀ k, countDone (List.take k (xs.flatMap
        (fun _ => [TransferEvent.chunkDone, TransferEvent.progressReport])))
      ≤ countReports (List.take k (xs.flatMap
        (fun _ => [TransferEvent.chunkDone, TransferEvent.progressReport]))) + 1 := by
  induction xs with
  | nil =>
    intro k
    simp [countDone, countReports]
  | cons x xs ih =>
    intro k
    match k with
    | 0 => simp [countDone, countReports]
    | 1 => simp [countDone, countReports, List.countP_cons, isChunkDone, isProgressReport]
    | (k + 2) =>
      have ihk := ih k
      simp only [List.flatMap_cons, List.cons_append, List.nil_append,
        List.take_succ_cons, countDone, countReports, List.countP_cons,
        isChunkDone, isProgressReport] at ihk ⊢
      omega

lemma seq_trace_counts (total : Nat) :
    countDone (uploadChunksTrace total) = total ∧
    countReports (uploadChunksTrace total) = total := by
  induction total with
  | zero => exact ⟨rfl, rfl⟩
  | succ n ih =>
    unfold uploadChunksTrace at ih ⊢
    rw [List.range_succ, List.flatMap_append] at *
    simp [List.flatMap_cons, List.flatMap_nil, countDone, countReports,
      List.countP_append, List.countP_cons, List.countP_nil,
      isChunkDone, isProgressReport] at ih ⊢
    omega

lemma parallel_trace_reports (total : Nat) :
    ∀ fuel i, total ≤ i + 5 * fuel →
      countReports (uploadChunksParallelTraceLoop total fuel i) = (total - i + 4) / 5 := by
  have hb5 : PARALLEL_BATCH = 5 := rfl
  intro fuel
  induction fuel with
  | zero =>
    intro i hfuel
    have h0 : total - i = 0 := by omega
    simp [uploadChunksParallelTraceLoop, countReports, h0]
  | succ fuel ih =>
    intro i hfuel
    by_cases hi : i < total
    · simp only [uploadChunksParallelTraceLoop, if_pos hi]
      rw [show countReports (List.replicate (min PARALLEL_BATCH (total - i))
            TransferEvent.chunkDone
          ++ TransferEvent.progressReport
            :: uploadChunksParallelTraceLoop total fuel (i + PARALLEL_BATCH))
        = List.countP isProgressReport (List.replicate (min PARALLEL_BATCH (total - i))
            TransferEvent.chunkDone)
          + (List.countP isProgressReport
              (uploadChunksParallelTraceLoop total fuel (i + PARALLEL_BATCH)) + 1)
        from by simp [countReports, List.countP_append, List.countP_cons, isProgressReport]]
      rw [countP_replicate_self]
      have hrec := ih (i + PARALLEL_BATCH) (by omega)
      rw [show List.countP isProgressReport
            (uploadChunksParallelTraceLoop total fuel (i + PARALLEL_BATCH))
          = countReports (uploadChunksParallelTraceLoop total fuel (i + PARALLEL_BATCH))
        from rfl, hrec]
      simp only [isProgressReport, if_false, Bool.false_eq_true]
      omega
    · simp only [uploadChunksParallelTraceLoop, if_neg hi]
      have h0 : total - i = 0 := by omega
      simp [countReports, h0]

/-- Claim C8 (amended): in the strictly sequential part_000 variant a
progress report is emitted after each completed chunk (every trace
prefix has at most one more completed chunk than progress reports, and
the full trace has exactly one report per chunk); the batched-parallel
script.js variant instead reports progress only at batch boundaries:
exactly one updateProgress call per batch of up to PARALLEL_BATCH
chunks, i.e. ceil(total / 5) reports in total. -/
theorem progress_reporting_amended (total : Nat) :
    (∀ k, countDone (List.take k (uploadChunksTrace total))
        ≤ countReports (List.take k (uploadChunksTrace total)) + 1) ∧
    countDone (uploadChunksTrace total) = total ∧
    countReports (uploadChunksTrace total) = total ∧
    countReports (uploadChunksParallelTrace total) = (total + 4) / 5 := by
  refine ⟨seq_trace_prefix_bound (List.range total), (seq_trace_counts total).1,
    (seq_trace_counts total).2, ?_⟩
  have := parallel_trace_reports total total 0 (by omega)
  simpa using this

/-! ## Registry update (updateRegistry of script.js, lines 401-448, and
updateDataJson / uploadDataJsonToGitHub of the part_000 variant, lines
419-488)

The remote store holds at most one data.json object together with its
concurrency token (the GitHub content sha, abstracted as a natural that
is bumped on every successful write).  A PUT with a token is accepted
exactly when the token matches the current one; a PUT without a token
is accepted exactly when the object does not exist yet.  Because the
orchestrator runs concurrently with other writers, the remote state
observed by the GET and the remote state at the time of the PUT are
passed separately (they coincide when no concurrent write intervenes).

The source sequence is:
  1. push the entry onto the in-memory appState.dataJson.files and set
     lastUpdated (no network involved);
  2. GET data.json to obtain sha (null if the GET fails or 404);
  3. PUT the serialized in-memory document with that sha, exactly once;
  4. the PUT response is not checked in script.js, and in part_000 a
     failed PUT throws inside uploadDataJsonToGitHub whose catch only
     logs a warning; in both variants every failure is swallowed and
     nothing is retried. -/

structure RemoteState where
  doc : Option (DataJson × Nat)
deriving DecidableEq

/-- GitHub contents PUT semantics for the data.json path: token must
match the current sha when the object exists, and must be absent when
it does not.  Returns the new remote state on acceptance, none on
rejection. -/
def putDataJson (r : RemoteState) (content : DataJson) (tok : Option Nat) :
    Option RemoteState :=
  match r.doc, tok with
  | none, none => some ⟨some (content, 0)⟩
  | none, some _ => none
  | some _, none => none
  | some (_, sha), some t =>
    if t = sha then some ⟨some (content, sha + 1)⟩ else none

structure UpdateRegistryResult where
  cache : DataJson
  remote : RemoteState
  putAttempts : Nat
  errorPropagated : Bool
deriving DecidableEq

/-- updateRegistry of script.js: cache is the in-memory
appState.dataJson, entry the new FileEntry, now the timestamp taken for
lastUpdated; rGet is the remote state observed by the GET and rPut the
remote state when the single PUT arrives.  The written content is the
serialized in-memory document, the PUT is attempted exactly once, its
outcome is not inspected, and the surrounding try/catch swallows every
failure. -/
def updateRegistry (cache : DataJson) (entry : FileEntry) (now : Nat)
    (rGet rPut : RemoteState) : UpdateRegistryResult :=
  { cache := ⟨cache.files ++ [entry], now⟩,
    remote := (putDataJson rPut ⟨cache.files ++ [entry], now⟩
      (rGet.doc.map (fun d => d.2))).getD rPut,
    putAttempts := 1,
    errorPropagated := false }

/-- FileEntry of a concurrent writer, present remotely but not in the
stale in-memory cache. -/
def concurrentEntry : FileEntry :=
  ⟨"concurrent.mp4", "video", 300, 200, 1⟩

/-- Remote state holding the concurrent writer's registry under sha 7. -/
def remoteWithConcurrent : RemoteState :=
  ⟨some (⟨[concurrentEntry], 5⟩, 7)⟩

/-- Remote state as observed by a GET before a concurrent bump: same
document path, sha 7. -/
def remoteAtGetStale : RemoteState :=
  ⟨some (⟨[], 5⟩, 7)⟩

/-- Remote state at PUT time after a concurrent writer bumped the sha
to 9. -/
def remoteAtPutBumped : RemoteState :=
  ⟨some (⟨[concurrentEntry], 6⟩, 9)⟩

/-- Claim C2 counterexample.  First scenario: the cache is stale (it
misses the concurrently added entry that the GET returns), and
updateRegistry writes the cache-derived document - not the freshly
read document with the entry appended - so the concurrent entry is
erased from the remote registry even though the token was valid, and
no error is propagated.  Second scenario: the token goes stale between
the GET and the PUT; the PUT is rejected, yet only one attempt is ever
made (no read-modify-write retry) and the rejection is swallowed, so
the append is silently dropped remotely. -/
theorem updateRegistry_rmw_cex :
    (updateRegistry ⟨[], 0⟩ sampleEntry 9 remoteWithConcurrent remoteWithConcurrent).remote.doc
        = some (⟨[sampleEntry], 9⟩, 8) ∧
    [sampleEntry] ≠ [concurrentEntry, sampleEntry] ∧
    (updateRegistry ⟨[], 0⟩ sampleEntry 9 remoteWithConcurrent
        remoteWithConcurrent).errorPropagated = false ∧
    (updateRegistry ⟨[], 0⟩ sampleEntry 9 remoteAtGetStale remoteAtPutBumped).remote
        = remoteAtPutBumped ∧
    (updateRegistry ⟨[], 0⟩ sampleEntry 9 remoteAtGetStale remoteAtPutBumped).putAttempts
        = 1 ∧
    (updateRegistry ⟨[], 0⟩ sampleEntry 9 remoteAtGetStale
        remoteAtPutBumped).errorPropagated = false := by
  decide

/-- Claim C2 (amended): updateRegistry fetches the concurrency token
freshly right before the write, but it appends the entry to the
in-memory cached document rather than to the freshly read one, writes
that cache-derived document, makes exactly one PUT attempt, and
propagates no error; when the PUT is rejected for a stale token the
remote document is left as the concurrent writer wrote it and the
append is silently dropped remotely (only the in-memory copy keeps the
entry). -/
theorem updateRegistry_rmw_amended (cache : DataJson) (entry : FileEntry) (now : Nat)
    (rGet rPut : RemoteState) :
    (updateRegistry cache entry now rGet rPut).putAttempts = 1 ∧
    (updateRegistry cache entry now rGet rPut).errorPropagated = false ∧
    (updateRegistry cache entry now rGet rPut).cache = ⟨cache.files ++ [entry], now⟩ ∧
    (putDataJson rPut ⟨cache.files ++ [entry], now⟩ (rGet.doc.map (fun d => d.2)) = none →
      (updateRegistry cache entry now rGet rPut).remote = rPut) := by
  refine ⟨rfl, rfl, rfl, ?_⟩
  intro hrej
  unfold updateRegistry
  simp [hrej]

/-- Witness for updateRegistry_rmw_amended at the stale-token
scenario. -/
theorem updateRegistry_rmw_amended_witness :
    putDataJson remoteAtPutBumped ⟨[] ++ [sampleEntry], 9⟩
        (remoteAtGetStale.doc.map (fun d => d.2)) = none ∧
    (updateRegistry ⟨[], 0⟩ sampleEntry 9 remoteAtGetStale remoteAtPutBumped).putAttempts = 1 ∧
    (updateRegistry ⟨[], 0⟩ sampleEntry 9 remoteAtGetStale
        remoteAtPutBumped).errorPropagated = false ∧
    (updateRegistry ⟨[], 0⟩ sampleEntry 9 remoteAtGetStale remoteAtPutBumped).cache
        = ⟨[] ++ [sampleEntry], 9⟩ ∧
    (updateRegistry ⟨[], 0⟩ sampleEntry 9 remoteAtGetStale remoteAtPutBumped).remote
        = remoteAtPutBumped :=
  ⟨by decide,
   (updateRegistry_rmw_amended ⟨[], 0⟩ sampleEntry 9 remoteAtGetStale remoteAtPutBumped).1,
   (updateRegistry_rmw_amended ⟨[], 0⟩ sampleEntry 9 remoteAtGetStale remoteAtPutBumped).2.1,
   (updateRegistry_rmw_amended ⟨[], 0⟩ sampleEntry 9 remoteAtGetStale remoteAtPutBumped).2.2.1,
   (updateRegistry_rmw_amended ⟨[], 0⟩ sampleEntry 9 remoteAtGetStale
     remoteAtPutBumped).2.2.2 (by decide)⟩

/-- Claim C9: the registry append is not atomic with the remote write.
The entry is pushed into the in-memory document and lastUpdated is set
independently of every remote outcome (the cache result does not
mention the remote states at all), and when the remote write is
rejected the operation still completes with no error propagated while
the remote document stays untouched - so the in-memory registry, which
the UI later displays, contains an entry the remote document never
received. -/
theorem updateRegistry_swallows_failure (cache : DataJson) (entry : FileEntry)
    (now : Nat) (rGet rPut : RemoteState)
    (hrej : putDataJson rPut ⟨cache.files ++ [entry], now⟩
      (rGet.doc.map (fun d => d.2)) = none) :
    (updateRegistry cache entry now rGet rPut).errorPropagated = false ∧
    (updateRegistry cache entry now rGet rPut).cache = ⟨cache.files ++ [entry], now⟩ ∧
    entry ∈ (updateRegistry cache entry now rGet rPut).cache.files ∧
    (updateRegistry cache entry now rGet rPut).remote = rPut := by
  refine ⟨rfl, rfl, by simp [updateRegistry], ?_⟩
  unfold updateRegistry
  simp [hrej]

/-- Witness for updateRegistry_swallows_failure at the stale-token
scenario. -/
theorem updateRegistry_swallows_failure_witness :
    putDataJson remoteAtPutBumped ⟨[] ++ [sampleEntry], 9⟩
        (remoteAtGetStale.doc.map (fun d => d.2)) = none ∧
    ((updateRegistry ⟨[], 0⟩ sampleEntry 9 remoteAtGetStale
        remoteAtPutBumped).errorPropagated = false ∧
     (updateRegistry ⟨[], 0⟩ sampleEntry 9 remoteAtGetStale remoteAtPutBumped).cache
        = ⟨[] ++ [sampleEntry], 9⟩ ∧
     sampleEntry ∈ (updateRegistry ⟨[], 0⟩ sampleEntry 9 remoteAtGetStale
        remoteAtPutBumped).cache.files ∧
     (updateRegistry ⟨[], 0⟩ sampleEntry 9 remoteAtGetStale remoteAtPutBumped).remote
        = remoteAtPutBumped) :=
  ⟨by decide,
   updateRegistry_swallows_failure ⟨[], 0⟩ sampleEntry 9 remoteAtGetStale
     remoteAtPutBumped (by decide)⟩

/-! ## Delete operation (deleteFile of the part_000 variant, lines
699-724; script.js lines 593-613 behaves analogously, crashing with a
TypeError on the missing entry instead of throwing explicitly)

  const fileEntry = appState.dataJson.files.find(f => f.name === filename);
  if (!fileEntry) throw new Error('File not found in registry');
  ... delete chunk objects and metadata ...
  appState.dataJson.files = appState.dataJson.files.filter(f => f.name !== filename);

The registry lookup happens before any network call, so the
missing-name path involves no remote interaction; the remote deletions
of the found path are abstracted as succeeding, since the claim
concerns the registry effect and the error status. -/

structure DeleteResult where
  files : List FileEntry
  errored : Bool
deriving DecidableEq

def deleteFile (files : List FileEntry) (filename : String) : DeleteResult :=
  match files.find? (fun f => f.name == filename) with
  | none => ⟨files, true⟩
  | some _ => ⟨files.filter (fun f => f.name != filename), false⟩

/-- Claim C7 counterexample: deleting a name absent from the registry
is surfaced as an error (the part_000 variant throws File not found in
registry, which the catch turns into a Delete failed status), not a
silent no-op. -/
theorem deleteFile_missing_name_cex :
    deleteFile [] ("nosuch.bin") = ⟨[], true⟩ ∧
    (deleteFile [] ("nosuch.bin")).errored ≠ false := by
  decide

/-- Claim C7 (amended): deleting a name with no exact-match entry
leaves the files sequence unchanged but fails with an error rather
than being a silent no-op; when the name is present, removal filters
out exactly the entries whose name matches exactly, and no error is
raised. -/
theorem deleteFile_amended (files : List FileEntry) (filename : String) :
    (files.find? (fun f => f.name == filename) = none →
      deleteFile files filename = ⟨files, true⟩) ∧
    (∀ e, files.find? (fun f => f.name == filename) = some e →
      deleteFile files filename
        = ⟨files.filter (fun f => f.name != filename), false⟩) := by
  constructor
  · intro h
    unfold deleteFile
    rw [h]
  · intro e h
    unfold deleteFile
    rw [h]

/-- Witness for deleteFile_amended on both the missing and the present
name. -/
theorem deleteFile_amended_witness :
    ([] : List FileEntry).find? (fun f => f.name == "nosuch.bin") = none ∧
    deleteFile [] ("nosuch.bin") = ⟨[], true⟩ ∧
    [sampleEntry].find? (fun f => f.name == "demo.zip") = some sampleEntry ∧
    deleteFile [sampleEntry] ("demo.zip")
      = ⟨[sampleEntry].filter (fun f => f.name != "demo.zip"), false⟩ :=
  ⟨by decide,
   (deleteFile_amended [] ("nosuch.bin")).1 (by decide),
   by decide,
   (deleteFile_amended [sampleEntry] ("demo.zip")).2 sampleEntry (by decide)⟩

/-! ## Compression ratio (entry construction in updateRegistry,
script.js line 408, and updateDataJson, part_000 line 429)

  compressionRatio: ((1 - compressedSize / originalSize) * 100).toFixed(2)

JavaScript number division is total (x / 0 evaluates to Infinity), and
the source applies it with no originalSize == 0 guard.  The embedding
makes the evaluation of a division with zero divisor observable by
returning none in that case; Number.toFixed(2) is modelled as rounding
to the nearest hundredth. -/

def jsDiv (a b : ℚ) : Option ℚ :=
  if b = 0 then none else some (a / b)

def toFixed2 (q : ℚ) : ℚ :=
  (round (q * 100) : ℤ) / 100

/-- The compressionRatio expression evaluated on the two byte counts;
none marks that a division by zero was evaluated (JavaScript produces
the non-numeric -Infinity percentage there and stores it in the
FileEntry). -/
def compressionRatioJs (originalSize compressedSize : Nat) : Option ℚ :=
  (jsDiv compressedSize originalSize).map (fun q => toFixed2 ((1 - q) * 100))

/-- Claim C5: the code evaluates compressedSize / originalSize with no
originalSize == 0 guard - on a zero-byte original (a legal upload: a
0-byte file passes the size check and compresses to a small non-empty
gzip stream) the division by zero IS evaluated, contradicting the
required guard; for positive originalSize the value is the specified
two-decimal percentage of 1 - compressedSize/originalSize. -/
theorem compressionRatio_unguarded :
    compressionRatioJs 0 20 = none ∧
    (∀ o c : Nat, 0 < o →
      compressionRatioJs o c = some (toFixed2 ((1 - (c : ℚ) / o) * 100))) := by
  constructor
  · rfl
  · intro o c ho
    unfold compressionRatioJs jsDiv
    rw [if_neg (by exact_mod_cast Nat.pos_iff_ne_zero.mp ho)]
    rfl

/-- Witness for compressionRatio_unguarded at a positive original
size. -/
theorem compressionRatio_unguarded_witness :
    (0 : Nat) < 100 ∧
    compressionRatioJs 100 40 = some (toFixed2 ((1 - (40 : ℚ) / 100) * 100)) :=
  ⟨by decide, compressionRatio_unguarded.2 100 40 (by decide)⟩

/-! ## File category detection (detectFileCategory, script.js lines
182-188 and part_000 lines 61-71; FILE_CATEGORIES, script.js lines
12-21)

  const ext = filename.split('.').pop().toLowerCase();
  for (const [category, data] of Object.entries(FILE_CATEGORIES)) \x7b
    if (data.extensions.includes(ext)) return category;
  \x7d
  return 'other';

split('.')/pop() yields the segment after the last dot, or the whole
string when the filename has no dot; splitOnChar mirrors the
JavaScript single-character split exactly (empty string gives one
empty segment).  Object.entries iterates the table in declaration
order, so the loop is a first-match search. -/

def splitOnChar (sep : Char) : List Char → List (List Char)
  | [] => [[]]
  | c :: cs =>
    let r := splitOnChar sep cs
    if c = sep then [] :: r
    else (c :: r.headD []) :: r.tail

/-- The declared category table, in source declaration order (the
icons play no role in detection and are omitted). -/
def FILE_CATEGORIES : List (String × List String) := [
  ("game", ["iso", "exe", "msi", "dmg", "app", "apk", "obb", "xapk", "gba", "nes", "snes", "zip"]),
  ("archive", ["zip", "rar", "7z", "tar", "gz", "bz2", "xz", "iso"]),
  ("video", ["mp4", "mkv", "avi", "mov", "flv", "wmv", "webm", "mpg", "mpeg", "m4v"]),
  ("image", ["jpg", "jpeg", "png", "gif", "bmp", "svg", "webp", "tiff", "ico"]),
  ("document", ["pdf", "doc", "docx", "xls", "xlsx", "ppt", "pptx", "txt", "rtf"]),
  ("executable", ["exe", "msi", "dmg", "app", "sh", "bat", "cmd"]),
  ("iso", ["iso", "bin", "cue"]),
  ("apk", ["apk", "xapk", "obb"])]

/-- filename.split('.').pop().toLowerCase() - the lowercased last
dot-separated segment (toLowerCase is ASCII lowercasing here, which
covers every declared extension). -/
def jsExtension (filename : String) : String :=
  String.mk (((splitOnChar '.' filename.toList).getLastD []).map Char.toLower)

def detectFileCategory (filename : String) : String :=
  let ext := jsExtension filename
  match FILE_CATEGORIES.find? (fun cd => cd.2.contains ext) with
  | some cd => cd.1
  | none => "other"

lemma detectFileCategory_eq_match (filename : String) :
    detectFileCategory filename
      = match FILE_CATEGORIES.find? (fun cd => cd.2.contains (jsExtension filename)) with
        | some cd => cd.1
        | none => "other" := rfl

lemma find?_eq_some_split {α : Type} (p : α → Bool) :
    ∀ (l : List α) (b : α), l.find? p = some b →
      p b = true ∧ ∃ pre post, l = pre ++ b :: post ∧ ∀ a ∈ pre, p a = false := by
  intro l
  induction l with
  | nil =>
    intro b h
    simp at h
  | cons x xs ih =>
    intro b h
    by_cases hx : p x
    · rw [List.find?_cons_of_pos _ hx] at h
      obtain rfl : x = b := Option.some_inj.mp h
      exact ⟨hx, [], xs, rfl, fun a ha => by simp at ha⟩
    · rw [List.find?_cons_of_neg _ hx] at h
      obtain ⟨hpb, pre, post, hxs, hpre⟩ := ih b h
      refine ⟨hpb, x :: pre, post, ?_, ?_⟩
      · rw [List.cons_append, hxs]
      · intro a ha
        rcases List.mem_cons.mp ha with rfl | ha
        · simpa using hx
        · exact hpre a ha

/-- Claim C6: detectFileCategory returns the first category in the
declared table order whose extension list contains the lowercased
extension of the filename, and returns other when no category lists
it; detectCategory of noext is other; and detectCategory of game.ISO
equals iso only if the iso category precedes the categories that also
list the iso extension (it does not - game is first, and the code
indeed returns game, making the conditional hold vacuously). -/
theorem detectFileCategory_table_order (filename : String) :
    (detectFileCategory filename = "other" →
      ∀ cd ∈ FILE_CATEGORIES, cd.2.contains (jsExtension filename) = false) ∧
    (detectFileCategory filename ≠ "other" →
      ∃ pre cd post, FILE_CATEGORIES = pre ++ cd :: post ∧
        detectFileCategory filename = cd.1 ∧
        cd.2.contains (jsExtension filename) = true ∧
        ∀ cd' ∈ pre, cd'.2.contains (jsExtension filename) = false) ∧
    detectFileCategory ("noext") = "other" ∧
    (detectFileCategory ("game.ISO") = "iso" →
      List.findIdx (fun cd => cd.1 == "iso") FILE_CATEGORIES
        < List.findIdx (fun cd => cd.1 == "game") FILE_CATEGORIES) := by
  have hother : ∀ cd ∈ FILE_CATEGORIES, cd.1 ≠ "other" := by decide
  refine ⟨?_, ?_, by decide, ?_⟩
  · intro h cd hcd
    rw [detectFileCategory_eq_match] at h
    cases hf : FILE_CATEGORIES.find? (fun cd => cd.2.contains (jsExtension filename)) with
    | some cd' =>
      rw [hf] at h
      exact absurd h (hother cd' (List.mem_of_find?_eq_some hf))
    | none =>
      have := List.find?_eq_none.mp hf cd hcd
      simpa using this
  · intro h
    rw [detectFileCategory_eq_match] at h ⊢
    cases hf : FILE_CATEGORIES.find? (fun cd => cd.2.contains (jsExtension filename)) with
    | some cd =>
      obtain ⟨hp, pre, post, hsplit, hpre⟩ := find?_eq_some_split _ FILE_CATEGORIES cd hf
      exact ⟨pre, cd, post, hsplit, rfl, hp, hpre⟩
    | none =>
      rw [hf] at h
      exact absurd rfl h
  · intro h
    have hgame : detectFileCategory ("game.ISO") = "game" := by decide
    rw [hgame] at h
    exact absurd h (by decide)

/-- Witness for detectFileCategory_table_order at game.ISO, whose
extension iso is listed by the game category first. -/
theorem detectFileCategory_table_order_witness :
    detectFileCategory ("game.ISO") ≠ "other" ∧
    (∃ pre cd post, FILE_CATEGORIES = pre ++ cd :: post ∧
      detectFileCategory ("game.ISO") = cd.1 ∧
      cd.2.contains (jsExtension ("game.ISO")) = true ∧
      ∀ cd' ∈ pre, cd'.2.contains (jsExtension ("game.ISO")) = false) :=
  ⟨by decide, (detectFileCategory_table_order ("game.ISO")).2.1 (by decide)⟩

lemma splitOnChar_of_not_mem (sep : Char) :
    ∀ cs : List Char, sep ∉ cs → splitOnChar sep cs = [cs] := by
  intro cs
  induction cs with
  | nil =>
    intro h
    rfl
  | cons c cs ih =>
    intro h
    have hc : ¬(c = sep) := fun he => h (he ▸ List.mem_cons_self c cs)
    have hcs : sep ∉ cs := fun hm => h (List.mem_cons_of_mem c hm)
    simp only [splitOnChar, if_neg hc, ih hcs]
    rfl

/-- Claim C10: for a filename containing no dot, split/pop returns the
entire filename, so the whole lowercased name is looked up as the
extension: a dotless name equal to a known extension is categorized by
the table (a file named zip gets game, the first category listing the
zip extension) instead of falling back to other; and the function is
total, always returning a declared category key or other. -/
theorem detectFileCategory_dotless_total (filename : String) :
    ('.' ∉ filename.toList →
      jsExtension filename = String.mk (filename.toList.map Char.toLower)) ∧
    detectFileCategory ("zip") = "game" ∧
    ("game" : String) ≠ "other" ∧
    (detectFileCategory filename = "other" ∨
      detectFileCategory filename ∈ FILE_CATEGORIES.map (fun cd => cd.1)) := by
  refine ⟨?_, by decide, by decide, ?_⟩
  · intro h
    unfold jsExtension
    rw [splitOnChar_of_not_mem '.' filename.toList h]
    rfl
  · rw [detectFileCategory_eq_match]
    cases hf : FILE_CATEGORIES.find? (fun cd => cd.2.contains (jsExtension filename)) with
    | some cd =>
      right
      exact List.mem_map.mpr ⟨cd, List.mem_of_find?_eq_some hf, rfl⟩
    | none =>
      left
      rfl

/-- Witness for detectFileCategory_dotless_total at the dotless
filename zip. -/
theorem detectFileCategory_dotless_total_witness :
    ('.' ∉ ("zip" : String).toList) ∧
    jsExtension ("zip") = String.mk (("zip" : String).toList.map Char.toLower) ∧
    detectFileCategory ("zip") = "game" :=
  ⟨by decide,
   (detectFileCategory_dotless_total ("zip")).1 (by decide),
   (detectFileCategory_dotless_total ("zip")).2.1⟩
